import Mathlib

/-!
Verification of the `todo` utility (a single-file Python program that scans
directories for annotated comment lines) against its natural-language
specification.  The Python source is shallowly embedded: pure functions become
Lean functions, the filesystem and environment become explicit data, and
uncaught Python exceptions become `Except.error` / a `crash` outcome.
-/

namespace Todo

/-- Whitespace as matched by Python's `re` pattern `\s` (and by `str.strip`)
on text strings: ASCII whitespace plus the Unicode whitespace characters. -/
def isPySpace (c : Char) : Bool :=
  c == ' ' || c == '\t' || c == '\n' || c == '\x0b' || c == '\x0c' || c == '\r' ||
  c == '\x1c' || c == '\x1d' || c == '\x1e' || c == '\x1f' || c == '\x85' ||
  c == '\xa0' || c == ' ' || ((' ' ≤ c) && (c ≤ ' ')) ||
  c == ' ' || c == ' ' || c == ' ' || c == ' ' || c == '　'

/-- Uppercase ASCII letter, as matched by the character class `[A-Z]`. -/
def isUpperAZ (c : Char) : Bool :=
  ('A' ≤ c) && (c ≤ 'Z')

/-- The alternation `(//|#|/?\*)` of the pattern in `search_file`
(src/todo.py line 72), tried at the head of the remaining characters;
returns the characters after the comment-opening token on success. -/
def matchToken : List Char → Option (List Char)
  | [] => none
  | c :: r =>
    if c = '/' then
      match r with
      | [] => none
      | c2 :: r2 => if c2 = '/' then some r2 else if c2 = '*' then some r2 else none
    else if c = '#' then some r
    else if c = '*' then some r
    else none

/-- The anchored pattern `^\s+(//|#|/?\*)\s+(?P<tag>@[A-Z]+) (?P<text>.*)` of
`search_file` (src/todo.py line 72) applied to one line (without its trailing
newline).  Greedy matching of `\s+` and `[A-Z]+` is deterministic here because
the character that must follow each repetition can never itself belong to the
repeated class, so the translation uses `takeWhile`/`dropWhile`.  Returns the
captures `(tag, text)` on success. -/
def lineMatch (s : List Char) : Option (String × String) :=
  let ws1 := s.takeWhile isPySpace
  let rest1 := s.dropWhile isPySpace
  if ws1.isEmpty then none else
  match matchToken rest1 with
  | none => none
  | some rest2 =>
    let ws2 := rest2.takeWhile isPySpace
    let rest3 := rest2.dropWhile isPySpace
    if ws2.isEmpty then none else
    match rest3 with
    | [] => none
    | a :: rest4 =>
      if a = '@' then
        let tg := rest4.takeWhile isUpperAZ
        let rest5 := rest4.dropWhile isUpperAZ
        if tg.isEmpty then none else
        match rest5 with
        | [] => none
        | b :: txt => if b = ' ' then some (String.mk ('@' :: tg), String.mk txt) else none
      else none

/-- Python's `str.strip()`: remove leading and trailing whitespace. -/
def pyStrip (s : String) : String :=
  String.mk (((s.data.dropWhile isPySpace).reverse.dropWhile isPySpace).reverse)

/-- The loop body of `search_file` (src/todo.py lines 76-79): scan the lines,
numbering them from `i` (the program starts at 1, as `enumerate(f, 1)` does),
and record `(line, tag, text.strip())` for every matching line. -/
def search_lines : Nat → List String → List (Nat × String × String)
  | _, [] => []
  | i, t :: rest =>
    match lineMatch t.data with
    | some (tag, txt) => (i, tag, pyStrip txt) :: search_lines (i + 1) rest
    | none => search_lines (i + 1) rest

/-- Observable behaviour of one candidate file for `search_file`: the lines
that decode successfully (without their trailing newline), whether a
`UnicodeDecodeError` is raised after those lines, and whether `open` itself
raises an `OSError` (e.g. `PermissionError`). -/
structure FileContent where
  lines : List String
  decodeError : Bool
  openError : Bool
deriving DecidableEq

/-- `SearchResult` dataclass (src/todo.py lines 56-59); the file path is a
list of absolute path components. -/
structure SearchResult where
  file : List String
  todos : List (Nat × String × String)
deriving DecidableEq

/-- `search_file` (src/todo.py lines 69-83).  `open` sits outside the `try`,
so an `OSError` while opening escapes (`Except.error`); only a
`UnicodeDecodeError` during the line loop is caught, and it makes the whole
file return `None` (`Except.ok none`), discarding matches found so far. -/
def search_file (f : List String × FileContent) : Except Unit (Option SearchResult) :=
  if f.2.openError then Except.error ()
  else if f.2.decodeError then Except.ok none
  else Except.ok (some ⟨f.1, search_lines 1 f.2.lines⟩)

/-- A filesystem entry as the traversal observes it: a directory with an
ordered listing of named children, a regular file, a symbolic link that
resolves to a regular file, or anything else (socket, device, ...).
`Path.is_dir()` is true exactly for `dir`; `Path.is_file()` is true for
`file` and `linkFile` (it follows symlinks). -/
inductive FSNode where
  | dir (children : List (String × FSNode))
  | file (content : FileContent)
  | linkFile (content : FileContent)
  | other

/-- The inner `search` closure of `find_files` (src/todo.py lines 45-50):
iterate the directory entries in listing order; entries with `is_dir()` true
recurse, otherwise entries with `is_file()` true are appended; anything else
is skipped.  `pre` is the absolute component path of the directory being
listed. -/
def find_files_aux : List String → List (String × FSNode) → List (List String × FileContent)
  | _, [] => []
  | pre, (name, FSNode.dir sub) :: rest =>
      find_files_aux (pre ++ [name]) sub ++ find_files_aux pre rest
  | pre, (name, FSNode.file c) :: rest => (pre ++ [name], c) :: find_files_aux pre rest
  | pre, (name, FSNode.linkFile c) :: rest => (pre ++ [name], c) :: find_files_aux pre rest
  | pre, (_, FSNode.other) :: rest => find_files_aux pre rest

/-- `find_files` (src/todo.py lines 41-53).  Calling `iterdir()` on a
non-directory raises, which escapes uncaught (`Except.error`). -/
def find_files (root : List String × FSNode) : Except Unit (List (List String × FileContent)) :=
  match root.2 with
  | FSNode.dir cs => Except.ok (find_files_aux root.1 cs)
  | _ => Except.error ()

/-- One directory of the working directory's ancestor chain: its absolute
component path and its entries (as consulted for `.git`). -/
structure DirInfo where
  path : List String
  entries : List (String × FSNode)

/-- `current_git_repo` (src/todo.py lines 106-111): walk `[cwd, *cwd.parents]`
(nearest first) and return the first directory for which `(path / '.git').exists()`
holds.  `Path.exists` is true for an entry of any kind (directory, regular
file, resolving symlink, special file), so presence of any `.git` entry
suffices. -/
def current_git_repo : List DirInfo → Option DirInfo
  | [] => none
  | d :: ds =>
    if (List.lookup ".git" d.entries).isSome then some d else current_git_repo ds

/-- The ambient state of one run: the working directory's ancestor chain
(nearest first), the value of `TODO_PATH` if set, the filesystem as a map
from a raw path string to its parsed components and entry tree (a path
string that resolves to nothing does not exist), and the home directory's
components. -/
structure World where
  chain : List DirInfo
  env : Option String
  rootFS : String → Option (List String × FSNode)
  home : List String

/-- `os.path.exists(p)` as used by `todo_paths`: the empty string exists for
no path in Python, and otherwise existence means the path resolves to some
filesystem entry. -/
def os_path_exists (w : World) (p : String) : Bool :=
  (p != "") && (w.rootFS p).isSome

/-- Python's `str.split(':')`, written directly on the character list:
every `:` separates two (possibly empty) fields. -/
def splitColonAux : List Char → List Char → List String
  | [], acc => [String.mk acc.reverse]
  | c :: rest, acc =>
    if c = ':' then String.mk acc.reverse :: splitColonAux rest []
    else splitColonAux rest (c :: acc)

/-- Python's `str.split(':')` on a string. -/
def splitColon (s : String) : List String := splitColonAux s.data []

/-- `todo_paths` (src/todo.py lines 95-103): if `TODO_PATH` is unset, `bail`
(`Except.error` carries the bail message); otherwise split its value on `:`
and keep, in order, the entries for which `os.path.exists` holds. -/
def todo_paths (w : World) : Except String (List String) :=
  match w.env with
  | none => Except.error "TODO_PATH not set."
  | some v => Except.ok ((splitColon v).filter (os_path_exists w))

/-- Python's `f'{s:<n}'`: left-justify `s` in a field of minimum width `n`. -/
def ljust (s : String) (n : Nat) : String :=
  s ++ String.mk (List.replicate (n - s.length) ' ')

/-- `h` is a leading run of the components of the second list. -/
def startsWithComps : List String → List String → Bool
  | [], _ => true
  | _ :: _, [] => false
  | a :: as, b :: bs => (a == b) && startsWithComps as bs

/-- `Path.relative_to` on component lists: strip the base if it leads the
path, otherwise raise `ValueError` (modelled as `none`). -/
def relative_to (p base : List String) : Option (List String) :=
  if startsWithComps base p then some (p.drop base.length) else none

/-- Render a relative component list the way `str(Path(...))` does. -/
def renderRel (rel : List String) : String :=
  match rel with
  | [] => "."
  | _ => String.intercalate "/" rel

/-- One output line of `SearchResult.__str__` (src/todo.py line 64):
`f'{tag:<7} {name}:{line:<4} {text}'`. -/
def fmtLine (name : String) (t : Nat × String × String) : String :=
  ljust t.2.1 7 ++ " " ++ name ++ ":" ++ ljust (Nat.repr t.1) 4 ++ " " ++ t.2.2

/-- `SearchResult.__str__` (src/todo.py lines 61-66) as the list of lines it
joins with newlines; `relative_to(Path.home())` raises `ValueError` when the
file is not under home, which escapes uncaught (`Except.error`). -/
def SearchResult.toLines (home : List String) (r : SearchResult) : Except Unit (List String) :=
  match relative_to r.file home with
  | none => Except.error ()
  | some rel => Except.ok (r.todos.map (fmtLine (renderRel rel)))

/-- The comprehension filter of `main` (src/todo.py lines 31-35):
`res for res in ... if res and res.todos` keeps a result only when it is not
`None` and its todo list is non-empty. -/
def keepFilter : List (Option SearchResult) → List SearchResult
  | [] => []
  | some r :: rest => if r.todos.isEmpty then keepFilter rest else r :: keepFilter rest
  | none :: rest => keepFilter rest

/-- `pool.map(search_file, ...)` (src/todo.py line 33): map `search_file`
over the files in submission order; an exception raised in any worker is
re-raised when results are collected. -/
def searchAll : List (List String × FileContent) → Except Unit (List (Option SearchResult))
  | [] => Except.ok []
  | f :: fs =>
    match search_file f, searchAll fs with
    | Except.error e, _ => Except.error e
    | _, Except.error e => Except.error e
    | Except.ok r, Except.ok rs => Except.ok (r :: rs)

/-- Phase two of `main` plus the comprehension filter: the retained
`SearchResult`s in submission order. -/
def collectResults (files : List (List String × FileContent)) : Except Unit (List SearchResult) :=
  match searchAll files with
  | Except.error e => Except.error e
  | Except.ok os => Except.ok (keepFilter os)

/-- `pool.map(find_files, paths)` followed by `chain(*files)`
(src/todo.py lines 30-33): enumerate every root and flatten in order. -/
def findAll : List (List String × FSNode) → Except Unit (List (List String × FileContent))
  | [] => Except.ok []
  | r :: rs =>
    match find_files r, findAll rs with
    | Except.error e, _ => Except.error e
    | _, Except.error e => Except.error e
    | Except.ok fs, Except.ok rest => Except.ok (fs ++ rest)

/-- The print loop of `main` (src/todo.py lines 37-38): print each retained
result in order; `str` may raise (`ValueError` from `relative_to`), in which
case the lines already printed stay printed and the program aborts.  Returns
the printed lines and whether the loop crashed. -/
def printAll (home : List String) : List SearchResult → List String × Bool
  | [] => ([], false)
  | r :: rs =>
    match SearchResult.toLines home r with
    | Except.error _ => ([], true)
    | Except.ok ls =>
      let rest := printAll home rs
      (ls ++ rest.1, rest.2)

/-- How one run ends: `fatal` is `bail` (the given line on stderr, exit code
1, nothing on stdout); `crash` is an uncaught Python exception (exit code 1)
after the given stdout lines; `ok` is normal termination (exit code 0) with
the given stdout lines. -/
inductive Outcome where
  | fatal (stderrLine : String)
  | crash (printed : List String)
  | ok (printed : List String)
deriving DecidableEq

/-- Process exit code of an outcome. -/
def Outcome.exitCode : Outcome → Nat
  | Outcome.fatal _ => 1
  | Outcome.crash _ => 1
  | Outcome.ok _ => 0

/-- Stdout lines of an outcome. -/
def Outcome.stdoutLines : Outcome → List String
  | Outcome.fatal _ => []
  | Outcome.crash ls => ls
  | Outcome.ok ls => ls

/-- The scanning and printing part of `main` (src/todo.py lines 29-38),
given the resolved scan roots. -/
def runScan (w : World) (roots : List (List String × FSNode)) : Outcome :=
  match findAll roots with
  | Except.error _ => Outcome.crash []
  | Except.ok files =>
    match collectResults files with
    | Except.error _ => Outcome.crash []
    | Except.ok kept =>
      match printAll w.home kept with
      | (printed, true) => Outcome.crash printed
      | (printed, false) => Outcome.ok printed

/-- `main` (src/todo.py lines 24-38): resolve the roots (the git repo if one
is found, else `todo_paths`, where `bail` prints `ERROR: <msg>` to stderr and
exits 1), then scan and print. -/
def runMain (w : World) : Outcome :=
  match current_git_repo w.chain with
  | some d => runScan w [(d.path, FSNode.dir d.entries)]
  | none =>
    match todo_paths w with
    | Except.error msg => Outcome.fatal ("ERROR: " ++ msg)
    | Except.ok ps => runScan w (ps.filterMap w.rootFS)

/-! Spec-side definitions, written from the specification's words, to be
compared with the definitions translated from the source. -/

/-- Spec-side: the comment-opening token is one of `//`, `#`, `*`, `/*`. -/
def tokenIsOneOf (tok : List Char) : Prop :=
  tok = ['/', '/'] ∨ tok = ['#'] ∨ tok = ['*'] ∨ tok = ['/', '*']

/-- Spec-side, the claim's pattern verbatim: at least one leading whitespace
character, a comment-opening token, then ONE whitespace character, then `@`
followed by one or more uppercase ASCII letters, then a single space, then
the remainder as free text. -/
def claimLinePattern (s : List Char) : Prop :=
  ∃ w1 tok c tg txt,
    s = w1 ++ (tok ++ (c :: '@' :: (tg ++ ' ' :: txt))) ∧
    w1 ≠ [] ∧ (∀ a ∈ w1, isPySpace a = true) ∧
    tokenIsOneOf tok ∧
    isPySpace c = true ∧
    tg ≠ [] ∧ (∀ a ∈ tg, isUpperAZ a = true)

/-- Spec-side, the claim's pattern amended at the one point the code forces:
ONE OR MORE whitespace characters may separate the comment-opening token from
the tag (the regex has `\s+` there). -/
def amendedLinePattern (s : List Char) : Prop :=
  ∃ w1 tok w2 tg txt,
    s = w1 ++ (tok ++ (w2 ++ '@' :: (tg ++ ' ' :: txt))) ∧
    w1 ≠ [] ∧ (∀ a ∈ w1, isPySpace a = true) ∧
    tokenIsOneOf tok ∧
    w2 ≠ [] ∧ (∀ a ∈ w2, isPySpace a = true) ∧
    tg ≠ [] ∧ (∀ a ∈ tg, isUpperAZ a = true)

/-- A chain directory contains an entry named `.git` of any kind — what
`(path / '.git').exists()` tests. -/
def hasGitEntry (d : DirInfo) : Bool :=
  (List.lookup ".git" d.entries).isSome

/-- Spec-side: a chain directory contains a SUBDIRECTORY named `.git` — the
claim's wording. -/
def hasGitSubdir (d : DirInfo) : Bool :=
  match List.lookup ".git" d.entries with
  | some (FSNode.dir _) => true
  | _ => false

/-- Spec-side: the entry at path `p` (components) with content `c` is
reachable from the given node by recursive descent and is collected because
`is_file()` holds of it (a regular file or a symlink resolving to one),
descending only through entries for which `is_dir()` holds. -/
inductive ReachesFile : List String → FSNode → List String → FileContent → Prop where
  | file (pre : List String) (cs : List (String × FSNode)) (name : String) (c : FileContent) :
      (name, FSNode.file c) ∈ cs → ReachesFile pre (FSNode.dir cs) (pre ++ [name]) c
  | link (pre : List String) (cs : List (String × FSNode)) (name : String) (c : FileContent) :
      (name, FSNode.linkFile c) ∈ cs → ReachesFile pre (FSNode.dir cs) (pre ++ [name]) c
  | step (pre : List String) (cs : List (String × FSNode)) (name : String)
      (sub : List (String × FSNode)) (p : List String) (c : FileContent) :
      (name, FSNode.dir sub) ∈ cs → ReachesFile (pre ++ [name]) (FSNode.dir sub) p c →
      ReachesFile pre (FSNode.dir cs) p c

/-- Spec-side, the claim's wording: the entry at path `p` is reachable by
recursive descent and is a REGULAR file (symlinks excluded). -/
inductive ReachesRegular : List String → FSNode → List String → FileContent → Prop where
  | file (pre : List String) (cs : List (String × FSNode)) (name : String) (c : FileContent) :
      (name, FSNode.file c) ∈ cs → ReachesRegular pre (FSNode.dir cs) (pre ++ [name]) c
  | step (pre : List String) (cs : List (String × FSNode)) (name : String)
      (sub : List (String × FSNode)) (p : List String) (c : FileContent) :
      (name, FSNode.dir sub) ∈ cs → ReachesRegular (pre ++ [name]) (FSNode.dir sub) p c →
      ReachesRegular pre (FSNode.dir cs) p c

/-- A well-formed filesystem node: sibling names are distinct in every
directory listing, as on a real filesystem. -/
inductive WFNode : FSNode → Prop where
  | file (c : FileContent) : WFNode (FSNode.file c)
  | link (c : FileContent) : WFNode (FSNode.linkFile c)
  | other : WFNode FSNode.other
  | dir (cs : List (String × FSNode)) :
      (cs.map Prod.fst).Nodup → (∀ e ∈ cs, WFNode e.2) → WFNode (FSNode.dir cs)

/-! Concrete fixtures used by counterexamples and witnesses. -/

/-- A regular file whose single line carries a tag annotation. -/
def fcGood : FileContent := ⟨["  # @TODO hi"], false, false⟩

/-- A file on which `open` raises (e.g. no read permission). -/
def fcOpenErr : FileContent := ⟨[], false, true⟩

/-- A file with one matching line followed by undecodable bytes. -/
def fcDecodeErr : FileContent := ⟨["  # @TODO lost"], true, false⟩

/-- The line `" #  @T x"`: two spaces between `#` and the tag. -/
def cexLine : List Char := [' ', '#', ' ', ' ', '@', 'T', ' ', 'x']

/-- A chain directory containing a regular FILE named `.git`. -/
def gitFileDir : DirInfo := ⟨["home", "u", "w"], [(".git", FSNode.file fcGood)]⟩

/-- A chain directory containing a subdirectory named `.git`. -/
def gitSubdirDir : DirInfo := ⟨["home", "u"], [(".git", FSNode.dir [])]⟩

/-- An ancestor chain whose nearest `.git` entry is a file and whose nearest
`.git` subdirectory sits one level further up. -/
def cexChain : List DirInfo := [gitFileDir, gitSubdirDir]

/-- A directory listing holding one symlink that resolves to a regular file. -/
def cexLinkChildren : List (String × FSNode) := [("l", FSNode.linkFile fcGood)]

/-- A world with no git ancestor, `TODO_PATH` naming one root whose first
file cannot be opened. -/
def wOpenErr : World :=
  ⟨[], some "r",
   fun p => if p = "r" then
      some (["r"], FSNode.dir [("bad", FSNode.file fcOpenErr), ("good", FSNode.file fcGood)])
    else none,
   []⟩

/-- A world with no git ancestor and `TODO_PATH` unset. -/
def wNoConfig : World := ⟨[], none, fun _ => none, []⟩

/-- A world with no git ancestor and `TODO_PATH = ":/nope"`: an empty
segment and a segment that does not exist. -/
def wEmptySeg : World := ⟨[], some ":/nope", fun _ => none, []⟩

/-- A world with no git ancestor and `TODO_PATH = "a:b:a"` where only `a`
exists. -/
def wDup : World :=
  ⟨[], some "a:b:a", fun p => if p = "a" then some (["a"], FSNode.dir []) else none, []⟩

/-- A world whose working directory contains a `.git` entry. -/
def wGit : World := ⟨[gitFileDir], some "a", fun _ => none, []⟩

/-! ## Helper lemmas -/

theorem takeWhile_all_append {α : Type} (p : α → Bool) (xs ys : List α) (y : α)
    (hall : ∀ a ∈ xs, p a = true) (hy : p y = false) :
    List.takeWhile p (xs ++ y :: ys) = xs := by
  induction xs with
  | nil => simp [List.takeWhile_cons, hy]
  | cons a as ih =>
    have ha : p a = true := hall a (by simp)
    simp only [List.cons_append, List.takeWhile_cons, ha, if_true]
    rw [ih (fun b hb => hall b (by simp [hb]))]

theorem dropWhile_all_append {α : Type} (p : α → Bool) (xs ys : List α) (y : α)
    (hall : ∀ a ∈ xs, p a = true) (hy : p y = false) :
    List.dropWhile p (xs ++ y :: ys) = y :: ys := by
  induction xs with
  | nil => simp [List.dropWhile_cons, hy]
  | cons a as ih =>
    have ha : p a = true := hall a (by simp)
    simp only [List.cons_append, List.dropWhile_cons, ha, if_true]
    exact ih (fun b hb => hall b (by simp [hb]))

theorem matchToken_eq_some {r r' : List Char} (h : matchToken r = some r') :
    r = '/' :: '/' :: r' ∨ r = '#' :: r' ∨ r = '/' :: '*' :: r' ∨ r = '*' :: r' := by
  match r with
  | [] => simp [matchToken] at h
  | c :: rest =>
    by_cases hc : c = '/'
    · subst hc
      match rest with
      | [] => simp [matchToken] at h
      | c2 :: r2 =>
        by_cases h2 : c2 = '/'
        · subst h2
          simp [matchToken] at h
          subst h
          exact Or.inl rfl
        · by_cases h3 : c2 = '*'
          · subst h3
            simp [matchToken, h2] at h
            subst h
            exact Or.inr (Or.inr (Or.inl rfl))
          · simp [matchToken, h2, h3] at h
    · by_cases hh : c = '#'
      · subst hh
        simp [matchToken] at h
        subst h
        exact Or.inr (Or.inl rfl)
      · by_cases hs : c = '*'
        · subst hs
          simp [matchToken] at h
          subst h
          exact Or.inr (Or.inr (Or.inr rfl))
        · simp [matchToken, hc, hh, hs] at h

theorem matchToken_slashslash (r : List Char) : matchToken ('/' :: '/' :: r) = some r := by
  simp [matchToken]

theorem matchToken_hash (r : List Char) : matchToken ('#' :: r) = some r := by
  simp [matchToken]

theorem matchToken_star (r : List Char) : matchToken ('*' :: r) = some r := by
  simp [matchToken]

theorem matchToken_slashstar (r : List Char) : matchToken ('/' :: '*' :: r) = some r := by
  simp [matchToken]

theorem resolve_head {tok : List Char} (htok : tokenIsOneOf tok) (w1 rest : List Char)
    (hw1 : ∀ a ∈ w1, isPySpace a = true) :
    (w1 ++ (tok ++ rest)).takeWhile isPySpace = w1 ∧
    (w1 ++ (tok ++ rest)).dropWhile isPySpace = tok ++ rest ∧
    matchToken (tok ++ rest) = some rest := by
  rcases htok with rfl | rfl | rfl | rfl <;>
    refine ⟨?_, ?_, ?_⟩ <;>
    simp only [List.cons_append, List.nil_append, List.append_assoc] <;>
    first
      | exact takeWhile_all_append _ _ _ _ hw1 (by decide)
      | exact dropWhile_all_append _ _ _ _ hw1 (by decide)
      | simp [matchToken]

theorem resolve_tag {w2 tg : List Char} (txt : List Char)
    (hw2 : ∀ a ∈ w2, isPySpace a = true) (htg : ∀ a ∈ tg, isUpperAZ a = true) :
    (w2 ++ '@' :: (tg ++ ' ' :: txt)).takeWhile isPySpace = w2 ∧
    (w2 ++ '@' :: (tg ++ ' ' :: txt)).dropWhile isPySpace = '@' :: (tg ++ ' ' :: txt) ∧
    (tg ++ ' ' :: txt).takeWhile isUpperAZ = tg ∧
    (tg ++ ' ' :: txt).dropWhile isUpperAZ = ' ' :: txt :=
  ⟨takeWhile_all_append _ _ _ _ hw2 (by decide),
   dropWhile_all_append _ _ _ _ hw2 (by decide),
   takeWhile_all_append _ _ _ _ htg (by decide),
   dropWhile_all_append _ _ _ _ htg (by decide)⟩

theorem pattern_lineMatch_isSome {s : List Char} (hp : amendedLinePattern s) :
    (lineMatch s).isSome = true := by
  obtain ⟨w1, tok, w2, tg, txt, rfl, hw1ne, hw1, htok, hw2ne, hw2, htgne, htg⟩ := hp
  obtain ⟨hA, hB, hC⟩ := resolve_head htok w1 (w2 ++ '@' :: (tg ++ ' ' :: txt)) hw1
  obtain ⟨hD, hE, hF, hG⟩ := resolve_tag txt hw2 htg
  have hw1e : w1.isEmpty = false := by cases w1 with
    | nil => exact absurd rfl hw1ne
    | cons a as => rfl
  have hw2e : w2.isEmpty = false := by cases w2 with
    | nil => exact absurd rfl hw2ne
    | cons a as => rfl
  have htge : tg.isEmpty = false := by cases tg with
    | nil => exact absurd rfl htgne
    | cons a as => rfl
  simp only [lineMatch, hA, hB, hC, hD, hE, hF, hG, hw1e, hw2e, htge]
  simp

theorem assemble_pattern {s rest2 rest4 txt tok : List Char}
    (htokOk : tokenIsOneOf tok)
    (hws1 : ¬(s.takeWhile isPySpace).isEmpty = true)
    (hdw : s.dropWhile isPySpace = tok ++ rest2)
    (hws2 : ¬(rest2.takeWhile isPySpace).isEmpty = true)
    (hr3 : rest2.dropWhile isPySpace = '@' :: rest4)
    (htge : ¬(rest4.takeWhile isUpperAZ).isEmpty = true)
    (hr5 : rest4.dropWhile isUpperAZ = ' ' :: txt) :
    amendedLinePattern s := by
  refine ⟨s.takeWhile isPySpace, tok, rest2.takeWhile isPySpace, rest4.takeWhile isUpperAZ, txt,
    ?_, ?_, fun a ha => List.mem_takeWhile_imp ha, htokOk,
    ?_, fun a ha => List.mem_takeWhile_imp ha,
    ?_, fun a ha => List.mem_takeWhile_imp ha⟩
  · have e4 := List.takeWhile_append_dropWhile (p := isUpperAZ) (l := rest4)
    rw [hr5] at e4
    have e2 := List.takeWhile_append_dropWhile (p := isPySpace) (l := rest2)
    rw [hr3, ← e4] at e2
    have e0 := List.takeWhile_append_dropWhile (p := isPySpace) (l := s)
    rw [hdw, ← e2] at e0
    exact e0.symm
  · intro hh
    exact hws1 (by rw [hh]; rfl)
  · intro hh
    exact hws2 (by rw [hh]; rfl)
  · intro hh
    exact htge (by rw [hh]; rfl)

theorem lineMatch_isSome_pattern {s : List Char} (h : (lineMatch s).isSome = true) :
    amendedLinePattern s := by
  simp only [lineMatch] at h
  split at h
  · simp at h
  next hws1 =>
  split at h
  · simp at h
  next rest2 hm =>
  split at h
  · simp at h
  next hws2 =>
  split at h
  · simp at h
  next a rest4 hr3 =>
  split at h
  swap
  · simp at h
  next ha =>
  split at h
  · simp at h
  next htge =>
  split at h
  · simp at h
  next b txt hr5 =>
  split at h
  swap
  · simp at h
  next hb =>
  subst ha
  subst hb
  rcases matchToken_eq_some hm with htok | htok | htok | htok
  · exact assemble_pattern (Or.inl rfl) hws1 (htok.trans rfl) hws2 hr3 htge hr5
  · exact assemble_pattern (Or.inr (Or.inl rfl)) hws1 (htok.trans rfl) hws2 hr3 htge hr5
  · exact assemble_pattern (Or.inr (Or.inr (Or.inr rfl))) hws1 (htok.trans rfl) hws2 hr3 htge hr5
  · exact assemble_pattern (Or.inr (Or.inr (Or.inl rfl))) hws1 (htok.trans rfl) hws2 hr3 htge hr5

/-! ## Claim C1 -/

/-- C1 (amended): the Line Matcher produces an Annotation for a line if and
only if the line consists of at least one leading whitespace character, then
a comment-opening token that is one of `//`, `#`, `*`, or `/*`, then ONE OR
MORE whitespace characters (amended from the claim's "one whitespace
character"), then a tag of `@` followed by one or more uppercase ASCII
letters, then a single space, then the remainder as free text; in particular
a line whose tag appears at column 0 never matches. -/
theorem claim1_matcher_pattern (s : List Char) :
    (lineMatch s).isSome = true ↔ amendedLinePattern s :=
  ⟨lineMatch_isSome_pattern, pattern_lineMatch_isSome⟩

/-- C1 counterexample: the line `" #  @T x"` (one leading space, `#`, TWO
spaces, tag, space, text) is matched by the code's pattern, yet it does not
satisfy the claim's pattern, which demands exactly one whitespace character
between the comment token and the tag. -/
theorem claim1_matcher_counterexample :
    (lineMatch cexLine).isSome = true ∧ ¬ claimLinePattern cexLine := by
  constructor
  · decide
  · rintro ⟨w1, tok, c, tg, txt, heq, hw1ne, hw1, htok, hc, htgne, htg⟩
    rcases w1 with _ | ⟨a, w1'⟩
    · exact hw1ne rfl
    rcases w1' with _ | ⟨b, w1''⟩
    · rcases htok with rfl | rfl | rfl | rfl <;>
        simp [cexLine, List.cons_append] at heq
    · have hb : isPySpace b = true := hw1 b (by simp)
      have hbeq : b = '#' := by
        simp [cexLine, List.cons_append] at heq
        tauto
      rw [hbeq] at hb
      simp [isPySpace] at hb

/-- C1 witness: the matched line `" #  @T x"` satisfies the amended pattern. -/
theorem claim1_matcher_witness : amendedLinePattern cexLine :=
  (claim1_matcher_pattern cexLine).mp (by decide)

/-! ## Claim C9 -/

theorem lineMatch_tag_shape {s : List Char} {tag txt : String}
    (h : lineMatch s = some (tag, txt)) :
    ∃ tgl, tag = String.mk ('@' :: tgl) ∧ tgl ≠ [] ∧ ∀ a ∈ tgl, isUpperAZ a = true := by
  simp only [lineMatch] at h
  split at h
  · cases h
  next hws1 =>
  split at h
  · cases h
  next rest2 hm =>
  split at h
  · cases h
  next hws2 =>
  split at h
  · cases h
  next a rest4 hr3 =>
  split at h
  swap
  · cases h
  next ha =>
  split at h
  · cases h
  next htge =>
  split at h
  · cases h
  next b txt2 hr5 =>
  split at h
  swap
  · cases h
  next hb =>
  simp only [Option.some.injEq, Prod.mk.injEq] at h
  obtain ⟨h1, h2⟩ := h
  refine ⟨rest4.takeWhile isUpperAZ, h1.symm, ?_,
    fun a ha2 => List.mem_takeWhile_imp ha2⟩
  intro hh
  exact htge (by rw [hh]; rfl)

theorem search_lines_mem {i : Nat} {ls : List String} {e : Nat × String × String}
    (h : e ∈ search_lines i ls) :
    i ≤ e.1 ∧ e.1 < i + ls.length ∧
    ∃ t, ls.get? (e.1 - i) = some t ∧
      ∃ txt0, lineMatch t.data = some (e.2.1, txt0) ∧ e.2.2 = pyStrip txt0 := by
  induction ls generalizing i with
  | nil => simp [search_lines] at h
  | cons t rest ih =>
    simp only [search_lines] at h
    cases hm : lineMatch t.data with
    | some pr =>
      obtain ⟨tag, txt⟩ := pr
      rw [hm] at h
      simp only [List.mem_cons] at h
      rcases h with rfl | h
      · refine ⟨Nat.le_refl i, by simp, t, ?_, txt, hm, rfl⟩
        simp
      · obtain ⟨hlb, hub, t', hget, rest'⟩ := ih h
        refine ⟨by omega, by simp; omega, t', ?_, rest'⟩
        have harith : e.1 - i = (e.1 - (i + 1)) + 1 := by omega
        rw [harith, List.get?_cons_succ]
        exact hget
    | none =>
      rw [hm] at h
      obtain ⟨hlb, hub, t', hget, rest'⟩ := ih h
      refine ⟨by omega, by simp; omega, t', ?_, rest'⟩
      have harith : e.1 - i = (e.1 - (i + 1)) + 1 := by omega
      rw [harith, List.get?_cons_succ]
      exact hget

theorem search_lines_pairwise (i : Nat) (ls : List String) :
    ((search_lines i ls).map (fun e => e.1)).Pairwise (· < ·) := by
  induction ls generalizing i with
  | nil => simp [search_lines]
  | cons t rest ih =>
    simp only [search_lines]
    cases hm : lineMatch t.data with
    | none => exact ih (i + 1)
    | some pr =>
      obtain ⟨tag, txt⟩ := pr
      simp only [List.map_cons]
      refine List.Pairwise.cons ?_ (ih (i + 1))
      intro x hx
      obtain ⟨e, he, rfl⟩ := List.mem_map.mp hx
      have := (search_lines_mem he).1
      omega

/-- C9: every Annotation produced by the Line Matcher carries a 1-indexed
line number within the file, derived from exactly that physical line, and a
non-empty tag of `@` followed by one or more uppercase ASCII letters; within
one report the Annotations appear in strictly ascending line-number order
(the text may be empty after trimming). -/
theorem claim9_annotation_invariants (lines : List String) :
    (∀ e ∈ search_lines 1 lines,
      1 ≤ e.1 ∧ e.1 ≤ lines.length ∧
      (∃ t, lines.get? (e.1 - 1) = some t ∧
        ∃ txt0, lineMatch t.data = some (e.2.1, txt0) ∧ e.2.2 = pyStrip txt0) ∧
      (∃ tgl, e.2.1 = String.mk ('@' :: tgl) ∧ tgl ≠ [] ∧ ∀ a ∈ tgl, isUpperAZ a = true) ∧
      e.2.1 ≠ "") ∧
    ((search_lines 1 lines).map (fun e => e.1)).Pairwise (· < ·) := by
  refine ⟨fun e he => ?_, search_lines_pairwise 1 lines⟩
  obtain ⟨hlb, hub, t, hget, txt0, hlm, htxt⟩ := search_lines_mem he
  obtain ⟨tgl, htag, htgl, hup⟩ := lineMatch_tag_shape hlm
  refine ⟨hlb, by omega, ⟨t, hget, txt0, hlm, htxt⟩, ⟨tgl, htag, htgl, hup⟩, ?_⟩
  rw [htag]
  intro hc
  have h2 := congrArg String.data hc
  simp at h2

/-- C9 witness: the three-line fixture from the specification's concrete
scenario, checked for the annotation `(3, "@FIXME", "f2")`. -/
theorem claim9_annotation_witness :
    1 ≤ 3 ∧ 3 ≤ (["  # @TODO fix", "nope", "  // @FIXME f2"] : List String).length ∧
    (∃ t, (["  # @TODO fix", "nope", "  // @FIXME f2"] : List String).get? (3 - 1) = some t ∧
      ∃ txt0, lineMatch t.data = some ("@FIXME", txt0) ∧ "f2" = pyStrip txt0) ∧
    (∃ tgl, "@FIXME" = String.mk ('@' :: tgl) ∧ tgl ≠ [] ∧ ∀ a ∈ tgl, isUpperAZ a = true) ∧
    "@FIXME" ≠ "" :=
  (claim9_annotation_invariants ["  # @TODO fix", "nope", "  // @FIXME f2"]).1
    (3, "@FIXME", "f2") (by decide)

/-! ## Claim C3 -/

/-- C3: with no source-control root in the ancestor chain and `TODO_PATH`
unset, the program prints `ERROR: TODO_PATH not set.` to the error stream and
exits non-zero, producing no stdout output and scanning nothing. -/
theorem claim3_missing_config (w : World)
    (hgit : current_git_repo w.chain = none) (henv : w.env = none) :
    runMain w = Outcome.fatal "ERROR: TODO_PATH not set." ∧
    (runMain w).exitCode ≠ 0 ∧ (runMain w).stdoutLines = [] := by
  have h1 : runMain w = Outcome.fatal "ERROR: TODO_PATH not set." := by
    simp only [runMain, hgit, todo_paths, henv]
    rfl
  exact ⟨h1, by rw [h1]; decide, by rw [h1]; rfl⟩

/-- C3 witness: a world with empty chain and no `TODO_PATH`. -/
theorem claim3_missing_config_witness :
    runMain wNoConfig = Outcome.fatal "ERROR: TODO_PATH not set." ∧
    (runMain wNoConfig).exitCode ≠ 0 ∧ (runMain wNoConfig).stdoutLines = [] :=
  claim3_missing_config wNoConfig rfl rfl

/-! ## Claim C10 -/

/-- C10: empty segments of `TODO_PATH` are dropped because the empty path
never exists; and if no segment exists and there is no source-control root,
the program scans nothing, prints nothing, and exits 0 rather than raising
an error. -/
theorem claim10_empty_segments (w : World) (v : String)
    (henv : w.env = some v) (hgit : current_git_repo w.chain = none) :
    (∀ ps, todo_paths w = Except.ok ps → "" ∉ ps) ∧
    ((∀ p ∈ splitColon v, os_path_exists w p = false) →
      runMain w = Outcome.ok [] ∧ (runMain w).exitCode = 0 ∧
      (runMain w).stdoutLines = []) := by
  constructor
  · intro ps hps hmem
    simp only [todo_paths, henv] at hps
    obtain rfl : (splitColon v).filter (os_path_exists w) = ps := by
      cases hps
      rfl
    have hx := (List.mem_filter.mp hmem).2
    have hempty : ((("" : String) != "") : Bool) = false := by decide
    rw [os_path_exists, hempty] at hx
    simp at hx
  · intro hall
    have hps : todo_paths w = Except.ok [] := by
      simp only [todo_paths, henv]
      congr 1
      rw [List.filter_eq_nil_iff]
      intro p hp
      rw [hall p hp]
      decide
    have h1 : runMain w = Outcome.ok [] := by
      simp only [runMain, hgit, hps]
      rfl
    exact ⟨h1, by rw [h1]; rfl, by rw [h1]; rfl⟩

/-- C10 witness: `TODO_PATH = ":/nope"` (an empty segment plus a missing
path) with no git root: the program prints nothing and exits 0. -/
theorem claim10_empty_segments_witness :
    runMain wEmptySeg = Outcome.ok [] ∧ (runMain wEmptySeg).exitCode = 0 ∧
    (runMain wEmptySeg).stdoutLines = [] :=
  (claim10_empty_segments wEmptySeg ":/nope" rfl rfl).2 (by decide)

theorem searchAll_append_err {xs : List (List String × FileContent)}
    {e : Unit} (hx : searchAll xs = Except.error e)
    (ys : List (List String × FileContent)) :
    searchAll (xs ++ ys) = Except.error e := by
  induction xs with
  | nil => exact Except.noConfusion hx
  | cons x xs ih =>
    rw [List.cons_append, searchAll]
    rw [searchAll] at hx
    revert hx
    cases hfx : search_file x with
    | error e2 =>
      cases hsx : searchAll xs <;> intro hx <;>
        cases searchAll (xs ++ ys) <;> rfl
    | ok r =>
      cases hsx : searchAll xs with
      | error e2 =>
        intro hx
        rw [ih (hsx.trans rfl)]
      | ok os =>
        intro hx
        exact Except.noConfusion hx

/-! ## Claim C6 -/

/-- C6: with `TODO_PATH` set, the resolved roots are exactly the colon-split
entries that currently exist, in their original order (a sublist of the
split), with missing entries silently dropped (the result is `ok`, never an
error) and duplicates retained (counts of existing entries are preserved). -/
theorem claim6_env_paths (w : World) (v : String) (henv : w.env = some v) :
    ∃ ps, todo_paths w = Except.ok ps ∧
      ps.Sublist (splitColon v) ∧
      (∀ p, p ∈ ps ↔ p ∈ splitColon v ∧ os_path_exists w p = true) ∧
      (∀ p, os_path_exists w p = true → ps.count p = (splitColon v).count p) := by
  refine ⟨(splitColon v).filter (os_path_exists w), by simp only [todo_paths, henv],
    List.filter_sublist _, fun p => ?_, fun p hp => List.count_filter hp⟩
  rw [List.mem_filter]

/-- C6 witness: `TODO_PATH = "a:b:a"` where only `a` exists: the roots are
`["a", "a"]` (order kept, duplicate kept, `b` dropped silently). -/
theorem claim6_env_paths_witness :
    (∃ ps, todo_paths wDup = Except.ok ps ∧
      ps.Sublist (splitColon "a:b:a") ∧
      (∀ p, p ∈ ps ↔ p ∈ splitColon "a:b:a" ∧ os_path_exists wDup p = true) ∧
      (∀ p, os_path_exists wDup p = true → ps.count p = (splitColon "a:b:a").count p)) ∧
    todo_paths wDup = Except.ok ["a", "a"] :=
  ⟨claim6_env_paths wDup "a:b:a" rfl, rfl⟩

/-! ## Claim C4 -/

theorem keepFilter_ne_nil :
    ∀ (os : List (Option SearchResult)) (r : SearchResult),
      r ∈ keepFilter os → r.todos ≠ []
  | [], r, hr => by simp [keepFilter] at hr
  | none :: rest, r, hr => keepFilter_ne_nil rest r (by rwa [keepFilter] at hr)
  | some r2 :: rest, r, hr => by
    rw [keepFilter] at hr
    by_cases h2 : r2.todos.isEmpty = true
    · exact keepFilter_ne_nil rest r (by rwa [if_pos h2] at hr)
    · rw [if_neg h2] at hr
      rcases List.mem_cons.mp hr with rfl | hr'
      · intro hc
        exact h2 (by simp [hc])
      · exact keepFilter_ne_nil rest r hr'

/-- C4: a result whose report holds zero Annotations (and a fortiori a file
skipped as `None`) is discarded by the filter before output: nothing retained
has an empty todo list, and an empty-todo result present among the mapped
results is never retained. -/
theorem claim4_empty_discarded (os : List (Option SearchResult)) :
    (∀ r ∈ keepFilter os, r.todos ≠ []) ∧
    (∀ r : SearchResult, some r ∈ os → r.todos = [] → r ∉ keepFilter os) :=
  ⟨keepFilter_ne_nil os, fun r _ hempty hin => keepFilter_ne_nil os r hin hempty⟩

/-- C4 witness: a result with an empty todo list is dropped by the filter. -/
theorem claim4_empty_discarded_witness :
    (⟨["h", "f"], []⟩ : SearchResult) ∉ keepFilter [some ⟨["h", "f"], []⟩] :=
  (claim4_empty_discarded [some ⟨["h", "f"], []⟩]).2 ⟨["h", "f"], []⟩ (by simp) rfl

/-! ## Claim C2 -/

theorem searchAll_append_ok {xs ys : List (List String × FileContent)}
    {a b : List (Option SearchResult)}
    (hx : searchAll xs = Except.ok a) (hy : searchAll ys = Except.ok b) :
    searchAll (xs ++ ys) = Except.ok (a ++ b) := by
  induction xs generalizing a with
  | nil =>
    rw [searchAll] at hx
    cases hx
    simpa using hy
  | cons x xs ih =>
    rw [List.cons_append, searchAll]
    rw [searchAll] at hx
    revert hx
    cases hfx : search_file x with
    | error e2 =>
      cases hsx : searchAll xs <;> intro hx <;> exact Except.noConfusion hx
    | ok r =>
      cases hsx : searchAll xs with
      | error e2 =>
        intro hx
        exact Except.noConfusion hx
      | ok os =>
        intro hx
        have ha : r :: os = a := Except.ok.inj hx
        rw [ih hsx, ← ha]
        rfl

theorem searchAll_cons_err {x : List String × FileContent}
    {xs : List (List String × FileContent)} {e : Unit}
    (hxs : searchAll xs = Except.error e) (r : Option SearchResult)
    (hx : search_file x = Except.ok r) :
    searchAll (x :: xs) = Except.error e := by
  rw [searchAll, hx, hxs]

theorem searchAll_append_err_right {xs ys : List (List String × FileContent)}
    {a : List (Option SearchResult)} {e : Unit}
    (hx : searchAll xs = Except.ok a) (hy : searchAll ys = Except.error e) :
    searchAll (xs ++ ys) = Except.error e := by
  induction xs generalizing a with
  | nil => simpa using hy
  | cons x xs ih =>
    rw [List.cons_append, searchAll]
    rw [searchAll] at hx
    revert hx
    cases hfx : search_file x with
    | error e2 =>
      cases hsx : searchAll xs <;> intro hx <;> exact Except.noConfusion hx
    | ok r =>
      cases hsx : searchAll xs with
      | error e2 =>
        intro hx
        exact Except.noConfusion hx
      | ok os =>
        intro hx
        rw [ih hsx]

theorem keepFilter_append : ∀ (a b : List (Option SearchResult)),
    keepFilter (a ++ b) = keepFilter a ++ keepFilter b
  | [], _ => rfl
  | none :: rest, b => keepFilter_append rest b
  | some r :: rest, b => by
    show keepFilter (some r :: (rest ++ b)) = keepFilter (some r :: rest) ++ keepFilter b
    rw [keepFilter, keepFilter]
    by_cases h : r.todos.isEmpty = true
    · rw [if_pos h, if_pos h]
      exact keepFilter_append rest b
    · rw [if_neg h, if_neg h, List.cons_append]
      exact congrArg (fun l => r :: l) (keepFilter_append rest b)

/-- C2 (amended): only a file whose bytes fail to DECODE is skipped silently
(`search_file` returns `None`, contributing zero annotations, and the run
continues over the remaining files unchanged, with no message); a file that
cannot be OPENED instead raises an uncaught error (amended from the claim,
which treated both cases as non-fatal). -/
theorem claim2_decode_skip (path : List String) (c : FileContent)
    (xs ys : List (List String × FileContent))
    (hopen : c.openError = false) (hdec : c.decodeError = true) :
    search_file (path, c) = Except.ok none ∧
    collectResults (xs ++ (path, c) :: ys) = collectResults (xs ++ ys) := by
  have hsf : search_file (path, c) = Except.ok none := by
    simp [search_file, hopen, hdec]
  refine ⟨hsf, ?_⟩
  rw [collectResults, collectResults]
  cases hxs : searchAll xs with
  | error e =>
    rw [searchAll_append_err hxs, searchAll_append_err hxs]
  | ok a =>
    cases hys : searchAll ys with
    | error e =>
      have hb : searchAll ((path, c) :: ys) = Except.error e :=
        searchAll_cons_err hys none hsf
      rw [searchAll_append_err_right hxs hb, searchAll_append_err_right hxs hys]
    | ok b =>
      have hb : searchAll ((path, c) :: ys) = Except.ok (none :: b) := by
        rw [searchAll, hsf, hys]
      rw [searchAll_append_ok hxs hb, searchAll_append_ok hxs hys]
      simp only [keepFilter_append]
      rw [show keepFilter (none :: b) = keepFilter b from rfl]

theorem runScan_crash_of_collect_err {w : World} {roots : List (List String × FSNode)}
    {files : List (List String × FileContent)} {e : Unit}
    (h1 : findAll roots = Except.ok files)
    (h2 : collectResults files = Except.error e) :
    runScan w roots = Outcome.crash [] := by
  simp only [runScan, h1, h2]

/-- C2 counterexample: a candidate file that cannot be opened is NOT skipped
silently: `search_file` raises (the `open` call sits outside the `try`), and
at main level the whole run aborts with an uncaught error instead of
continuing over the remaining files. -/
theorem claim2_open_counterexample :
    search_file (["r", "bad"], fcOpenErr) = Except.error () ∧
    runMain wOpenErr = Outcome.crash [] := by
  constructor
  · rfl
  · have haux : find_files_aux ["r"]
        [("bad", FSNode.file fcOpenErr), ("good", FSNode.file fcGood)] =
        [(["r", "bad"], fcOpenErr), (["r", "good"], fcGood)] := by
      simp [find_files_aux]
    have hfa : findAll
        [(["r"], FSNode.dir [("bad", FSNode.file fcOpenErr), ("good", FSNode.file fcGood)])] =
        Except.ok [(["r", "bad"], fcOpenErr), (["r", "good"], fcGood)] := by
      show Except.ok (find_files_aux ["r"]
        [("bad", FSNode.file fcOpenErr), ("good", FSNode.file fcGood)] ++ []) = _
      rw [haux]
      rfl
    exact Eq.trans rfl (runScan_crash_of_collect_err hfa rfl)

/-- C2 witness: a decode-failing file between healthy files contributes
nothing and leaves the collected results unchanged. -/
theorem claim2_decode_skip_witness :
    search_file (["r", "dec"], fcDecodeErr) = Except.ok none ∧
    collectResults ([(["r", "good"], fcGood)] ++ (["r", "dec"], fcDecodeErr) :: []) =
      collectResults ([(["r", "good"], fcGood)] ++ []) :=
  claim2_decode_skip ["r", "dec"] fcDecodeErr [(["r", "good"], fcGood)] [] rfl rfl

/-! ## Claim C5 -/

theorem current_git_repo_eq_find (chain : List DirInfo) :
    current_git_repo chain = chain.find? hasGitEntry := by
  induction chain with
  | nil => rfl
  | cons d ds ih =>
    by_cases h : (List.lookup ".git" d.entries).isSome = true
    · rw [current_git_repo, if_pos h]
      exact (List.find?_cons_of_pos (p := hasGitEntry) (a := d) ds h).symm
    · rw [current_git_repo, if_neg h, ih]
      exact (List.find?_cons_of_neg (p := hasGitEntry) (a := d) ds h).symm

/-- C5 counterexample: in a chain whose working directory contains a regular
FILE named `.git` and whose parent contains a `.git` SUBDIRECTORY, the
resolver returns the working directory, not the nearest directory containing
a `.git` subdirectory as the claim states. -/
theorem claim5_git_counterexample :
    (∃ d ∈ cexChain, hasGitSubdir d = true) ∧
    current_git_repo cexChain = some gitFileDir ∧
    cexChain.find? hasGitSubdir = some gitSubdirDir ∧
    gitFileDir.path ≠ gitSubdirDir.path := by
  refine ⟨⟨gitSubdirDir, ?_, rfl⟩, rfl, rfl, by decide⟩
  simp [cexChain]

/-- C5 (amended): the Path Resolver consults the environment variable only
when no directory of the chain contains an ENTRY named `.git` OF ANY KIND
(amended from "subdirectory": the code tests `Path.exists`, so a regular file
named `.git` also counts); when such an entry exists, the nearest such
directory is returned and the environment variable is never read (the run's
outcome is unchanged under any value of `TODO_PATH`). -/
theorem claim5_git_resolution (w : World) (e : Option String)
    (hex : ∃ d ∈ w.chain, hasGitEntry d = true) :
    current_git_repo w.chain = w.chain.find? hasGitEntry ∧
    (w.chain.find? hasGitEntry).isSome = true ∧
    runMain w = runMain ⟨w.chain, e, w.rootFS, w.home⟩ := by
  have hfind := current_git_repo_eq_find w.chain
  have hsome : (w.chain.find? hasGitEntry).isSome = true := List.find?_isSome.mpr hex
  refine ⟨hfind, hsome, ?_⟩
  obtain ⟨d0, hd0⟩ := Option.isSome_iff_exists.mp hsome
  have hrepo : current_git_repo w.chain = some d0 := hfind.trans hd0
  have hrw : runMain w = runScan w [(d0.path, FSNode.dir d0.entries)] := by
    simp only [runMain, hrepo]
  have hrw2 : runMain ⟨w.chain, e, w.rootFS, w.home⟩ =
      runScan ⟨w.chain, e, w.rootFS, w.home⟩ [(d0.path, FSNode.dir d0.entries)] := by
    simp only [runMain, hrepo]
  rw [hrw, hrw2]
  rfl

/-- C5 witness: a world whose working directory holds a `.git` entry resolves
to it and ignores `TODO_PATH`. -/
theorem claim5_git_witness :
    current_git_repo wGit.chain = wGit.chain.find? hasGitEntry ∧
    (wGit.chain.find? hasGitEntry).isSome = true ∧
    runMain wGit = runMain ⟨wGit.chain, none, wGit.rootFS, wGit.home⟩ :=
  claim5_git_resolution wGit none ⟨gitFileDir, by simp [wGit], rfl⟩

/-! ## Claim C8 -/

theorem toLines_ok {home : List String} {r : SearchResult}
    (h : startsWithComps home r.file = true) :
    SearchResult.toLines home r =
      Except.ok (r.todos.map (fmtLine (renderRel (r.file.drop home.length)))) := by
  simp [SearchResult.toLines, relative_to, h]

theorem printAll_all_ok (home : List String) :
    ∀ (rs : List SearchResult), (∀ r2 ∈ rs, startsWithComps home r2.file = true) →
      printAll home rs =
        ((rs.map (fun r2 =>
          r2.todos.map (fmtLine (renderRel (r2.file.drop home.length))))).flatten, false)
  | [], _ => rfl
  | r2 :: rest, hall => by
    have htail := printAll_all_ok home rest (fun x hx => hall x (List.mem_cons_of_mem _ hx))
    rw [printAll, toLines_ok (hall r2 (List.mem_cons_self _ _)), htail]
    simp

/-- C8: for every retained report the Reporter prints one line per
Annotation in the form `<tag left-justified to width 7> <path-relative-to-
home>:<line-number left-justified to width 4> <text>`, with the path
rendered relative to the home directory; rendering raises an error when the
file path is not under the home directory; and reports are printed in the
order they were retained. -/
theorem claim8_reporter (home : List String) (r : SearchResult)
    (rs : List SearchResult) :
    (startsWithComps home r.file = false →
      SearchResult.toLines home r = Except.error ()) ∧
    (startsWithComps home r.file = true →
      ∃ ls, SearchResult.toLines home r = Except.ok ls ∧
        ls.length = r.todos.length ∧
        ∀ k t, r.todos.get? k = some t →
          ls.get? k = some (ljust t.2.1 7 ++ " " ++
            renderRel (r.file.drop home.length) ++ ":" ++
            ljust (Nat.repr t.1) 4 ++ " " ++ t.2.2)) ∧
    ((∀ r2 ∈ rs, startsWithComps home r2.file = true) →
      printAll home rs =
        ((rs.map (fun r2 =>
          r2.todos.map (fmtLine (renderRel (r2.file.drop home.length))))).flatten, false)) := by
  refine ⟨?_, ?_, printAll_all_ok home rs⟩
  · intro h
    simp [SearchResult.toLines, relative_to, h]
  · intro h
    refine ⟨r.todos.map (fmtLine (renderRel (r.file.drop home.length))), toLines_ok h,
      by simp, ?_⟩
    intro k t hk
    have hmap : (r.todos.map (fmtLine (renderRel (r.file.drop home.length)))).get? k =
        (r.todos.get? k).map (fmtLine (renderRel (r.file.drop home.length))) := by
      simp [List.get?_eq_getElem?]
    rw [hmap, hk]
    rfl

/-- C8 witness: one report with one annotation under the home directory. -/
theorem claim8_reporter_witness :
    ∃ ls, SearchResult.toLines ["home", "u"]
        ⟨["home", "u", "f.py"], [(12, "@TODO", "x")]⟩ = Except.ok ls ∧
      ls.length = (⟨["home", "u", "f.py"], [(12, "@TODO", "x")]⟩ : SearchResult).todos.length ∧
      ∀ k t, (⟨["home", "u", "f.py"], [(12, "@TODO", "x")]⟩ : SearchResult).todos.get? k = some t →
        ls.get? k = some (ljust t.2.1 7 ++ " " ++
          renderRel ((⟨["home", "u", "f.py"], [(12, "@TODO", "x")]⟩ : SearchResult).file.drop
            (["home", "u"] : List String).length) ++ ":" ++
          ljust (Nat.repr t.1) 4 ++ " " ++ t.2.2) :=
  (claim8_reporter ["home", "u"] ⟨["home", "u", "f.py"], [(12, "@TODO", "x")]⟩ []).2.1 rfl

/-! ## Claim C7 -/

theorem ReachesFile.mono {pre p : List String} {c : FileContent}
    {rest cs : List (String × FSNode)}
    (h : ReachesFile pre (FSNode.dir rest) p c)
    (hsub : ∀ e ∈ rest, e ∈ cs) :
    ReachesFile pre (FSNode.dir cs) p c := by
  cases h with
  | file _ _ name c2 hm => exact ReachesFile.file _ _ _ _ (hsub _ hm)
  | link _ _ name c2 hm => exact ReachesFile.link _ _ _ _ (hsub _ hm)
  | step _ _ name sub p2 c2 hm hr => exact ReachesFile.step _ _ _ _ _ _ (hsub _ hm) hr

theorem aux_mem_reaches {p : List String} {c : FileContent} :
    ∀ (pre : List String) (cs : List (String × FSNode)),
      (p, c) ∈ find_files_aux pre cs → ReachesFile pre (FSNode.dir cs) p c := by
  intro pre cs
  induction pre, cs using find_files_aux.induct with
  | case1 pre =>
    intro h
    simp [find_files_aux] at h
  | case2 pre name sub rest ih1 ih2 =>
    intro h
    rw [find_files_aux] at h
    rcases List.mem_append.mp h with h1 | h2
    · exact ReachesFile.step pre _ name sub p c (List.mem_cons_self _ _) (ih1 h1)
    · exact ReachesFile.mono (ih2 h2) (fun e he => List.mem_cons_of_mem _ he)
  | case3 pre name c2 rest ih =>
    intro h
    rw [find_files_aux] at h
    rcases List.mem_cons.mp h with heq | h2
    · injection heq with h1 h2c
      subst h1
      subst h2c
      exact ReachesFile.file _ _ _ _ (List.mem_cons_self _ _)
    · exact ReachesFile.mono (ih h2) (fun e he => List.mem_cons_of_mem _ he)
  | case4 pre name c2 rest ih =>
    intro h
    rw [find_files_aux] at h
    rcases List.mem_cons.mp h with heq | h2
    · injection heq with h1 h2c
      subst h1
      subst h2c
      exact ReachesFile.link _ _ _ _ (List.mem_cons_self _ _)
    · exact ReachesFile.mono (ih h2) (fun e he => List.mem_cons_of_mem _ he)
  | case5 pre name rest ih =>
    intro h
    rw [find_files_aux] at h
    exact ReachesFile.mono (ih h) (fun e he => List.mem_cons_of_mem _ he)

theorem mem_aux_file {pre : List String} {name : String} {c : FileContent} :
    ∀ {cs : List (String × FSNode)}, (name, FSNode.file c) ∈ cs →
      (pre ++ [name], c) ∈ find_files_aux pre cs := by
  intro cs
  induction cs with
  | nil =>
    intro h
    cases h
  | cons e rest ih =>
    intro h
    rcases List.mem_cons.mp h with heq | h2
    · subst heq
      rw [find_files_aux]
      exact List.mem_cons_self _ _
    · obtain ⟨n2, node⟩ := e
      cases node with
      | dir sub =>
        rw [find_files_aux]
        exact List.mem_append_right _ (ih h2)
      | file c2 =>
        rw [find_files_aux]
        exact List.mem_cons_of_mem _ (ih h2)
      | linkFile c2 =>
        rw [find_files_aux]
        exact List.mem_cons_of_mem _ (ih h2)
      | other =>
        rw [find_files_aux]
        exact ih h2

theorem mem_aux_link {pre : List String} {name : String} {c : FileContent} :
    ∀ {cs : List (String × FSNode)}, (name, FSNode.linkFile c) ∈ cs →
      (pre ++ [name], c) ∈ find_files_aux pre cs := by
  intro cs
  induction cs with
  | nil =>
    intro h
    cases h
  | cons e rest ih =>
    intro h
    rcases List.mem_cons.mp h with heq | h2
    · subst heq
      rw [find_files_aux]
      exact List.mem_cons_self _ _
    · obtain ⟨n2, node⟩ := e
      cases node with
      | dir sub =>
        rw [find_files_aux]
        exact List.mem_append_right _ (ih h2)
      | file c2 =>
        rw [find_files_aux]
        exact List.mem_cons_of_mem _ (ih h2)
      | linkFile c2 =>
        rw [find_files_aux]
        exact List.mem_cons_of_mem _ (ih h2)
      | other =>
        rw [find_files_aux]
        exact ih h2

theorem mem_aux_step {pre p : List String} {name : String}
    {sub : List (String × FSNode)} {c : FileContent}
    (hp : (p, c) ∈ find_files_aux (pre ++ [name]) sub) :
    ∀ {cs : List (String × FSNode)}, (name, FSNode.dir sub) ∈ cs →
      (p, c) ∈ find_files_aux pre cs := by
  intro cs
  induction cs with
  | nil =>
    intro h
    cases h
  | cons e rest ih =>
    intro h
    rcases List.mem_cons.mp h with heq | h2
    · subst heq
      rw [find_files_aux]
      exact List.mem_append_left _ hp
    · obtain ⟨n2, node⟩ := e
      cases node with
      | dir sub2 =>
        rw [find_files_aux]
        exact List.mem_append_right _ (ih h2)
      | file c2 =>
        rw [find_files_aux]
        exact List.mem_cons_of_mem _ (ih h2)
      | linkFile c2 =>
        rw [find_files_aux]
        exact List.mem_cons_of_mem _ (ih h2)
      | other =>
        rw [find_files_aux]
        exact ih h2

theorem reaches_mem_aux {pre p : List String} {c : FileContent} {n : FSNode}
    (h : ReachesFile pre n p c) :
    ∀ {cs : List (String × FSNode)}, n = FSNode.dir cs →
      (p, c) ∈ find_files_aux pre cs := by
  induction h with
  | file pre2 cs2 name c2 hm =>
    intro cs heq
    injection heq with h'
    subst h'
    exact mem_aux_file hm
  | link pre2 cs2 name c2 hm =>
    intro cs heq
    injection heq with h'
    subst h'
    exact mem_aux_link hm
  | step pre2 cs2 name sub p2 c2 hm hr ih =>
    intro cs heq
    injection heq with h'
    subst h'
    exact mem_aux_step (ih rfl) hm

theorem aux_path_shape {p : List String} {c : FileContent} :
    ∀ (pre : List String) (cs : List (String × FSNode)),
      (p, c) ∈ find_files_aux pre cs →
      ∃ name rest2, p = pre ++ name :: rest2 ∧ name ∈ cs.map Prod.fst := by
  intro pre cs
  induction pre, cs using find_files_aux.induct with
  | case1 pre =>
    intro h
    simp [find_files_aux] at h
  | case2 pre name sub rest ih1 ih2 =>
    intro h
    rw [find_files_aux] at h
    rcases List.mem_append.mp h with h1 | h2
    · obtain ⟨n2, r2, heq, _⟩ := ih1 h1
      refine ⟨name, n2 :: r2, ?_, by simp⟩
      rw [heq, List.append_assoc]
      rfl
    · obtain ⟨n2, r2, heq, hmem⟩ := ih2 h2
      exact ⟨n2, r2, heq, by simp [hmem]⟩
  | case3 pre name c2 rest ih =>
    intro h
    rw [find_files_aux] at h
    rcases List.mem_cons.mp h with heq | h2
    · injection heq with h1 h2c
      exact ⟨name, [], h1, by simp⟩
    · obtain ⟨n2, r2, heq2, hmem⟩ := ih h2
      exact ⟨n2, r2, heq2, by simp [hmem]⟩
  | case4 pre name c2 rest ih =>
    intro h
    rw [find_files_aux] at h
    rcases List.mem_cons.mp h with heq | h2
    · injection heq with h1 h2c
      exact ⟨name, [], h1, by simp⟩
    · obtain ⟨n2, r2, heq2, hmem⟩ := ih h2
      exact ⟨n2, r2, heq2, by simp [hmem]⟩
  | case5 pre name rest ih =>
    intro h
    rw [find_files_aux] at h
    obtain ⟨n2, r2, heq2, hmem⟩ := ih h
    exact ⟨n2, r2, heq2, by simp [hmem]⟩

theorem WFNode.dir_names {cs : List (String × FSNode)}
    (h : WFNode (FSNode.dir cs)) : (cs.map Prod.fst).Nodup := by
  cases h with
  | dir _ hn _ => exact hn

theorem WFNode.dir_children {cs : List (String × FSNode)}
    (h : WFNode (FSNode.dir cs)) : ∀ e ∈ cs, WFNode e.2 := by
  cases h with
  | dir _ _ hc => exact hc

theorem WFNode.tail {e : String × FSNode} {cs : List (String × FSNode)}
    (h : WFNode (FSNode.dir (e :: cs))) : WFNode (FSNode.dir cs) := by
  cases h with
  | dir _ hn hc =>
    refine WFNode.dir _ ?_ (fun x hx => hc x (List.mem_cons_of_mem _ hx))
    have hn2 : (e.1 :: cs.map Prod.fst).Nodup := by simpa using hn
    exact hn2.of_cons

theorem aux_nodup : ∀ (pre : List String) (cs : List (String × FSNode)),
    WFNode (FSNode.dir cs) → ((find_files_aux pre cs).map Prod.fst).Nodup := by
  intro pre cs
  induction pre, cs using find_files_aux.induct with
  | case1 pre =>
    intro _
    simp [find_files_aux]
  | case2 pre name sub rest ih1 ih2 =>
    intro hwf
    rw [find_files_aux, List.map_append, List.nodup_append]
    have hw1 : WFNode (FSNode.dir sub) :=
      hwf.dir_children (name, FSNode.dir sub) (List.mem_cons_self _ _)
    refine ⟨ih1 hw1, ih2 hwf.tail, ?_⟩
    intro x hx1 hx2
    obtain ⟨⟨p1, c1⟩, he1, hx⟩ := List.mem_map.mp hx1
    obtain ⟨⟨p2, c2⟩, he2, hy⟩ := List.mem_map.mp hx2
    obtain ⟨n2, r2, heq1, _⟩ := aux_path_shape _ _ he1
    obtain ⟨n3, r3, heq2, hmem3⟩ := aux_path_shape _ _ he2
    simp only [List.append_assoc] at heq1
    simp only at hx hy
    have hpp : p1 = p2 := by rw [hx, hy]
    rw [heq1, heq2] at hpp
    have hcons : name :: (n2 :: r2) = n3 :: r3 := by
      refine @List.append_cancel_left _ pre _ _ ?_
      rw [← hpp]
      rfl
    have hn3 : name = n3 := by injection hcons
    have hnames : (name :: rest.map Prod.fst).Nodup := by simpa using hwf.dir_names
    exact (List.nodup_cons.mp hnames).1 (hn3 ▸ hmem3)
  | case3 pre name c2 rest ih =>
    intro hwf
    rw [find_files_aux, List.map_cons, List.nodup_cons]
    refine ⟨?_, ih hwf.tail⟩
    intro hx
    obtain ⟨⟨p2, c3⟩, he2, hy⟩ := List.mem_map.mp hx
    obtain ⟨n3, r3, heq2, hmem3⟩ := aux_path_shape _ _ he2
    simp only at hy
    rw [heq2] at hy
    have hcons : n3 :: r3 = [name] := List.append_cancel_left hy
    have hn3 : n3 = name := by injection hcons
    have hnames : (name :: rest.map Prod.fst).Nodup := by simpa using hwf.dir_names
    exact (List.nodup_cons.mp hnames).1 (hn3 ▸ hmem3)
  | case4 pre name c2 rest ih =>
    intro hwf
    rw [find_files_aux, List.map_cons, List.nodup_cons]
    refine ⟨?_, ih hwf.tail⟩
    intro hx
    obtain ⟨⟨p2, c3⟩, he2, hy⟩ := List.mem_map.mp hx
    obtain ⟨n3, r3, heq2, hmem3⟩ := aux_path_shape _ _ he2
    simp only at hy
    rw [heq2] at hy
    have hcons : n3 :: r3 = [name] := List.append_cancel_left hy
    have hn3 : n3 = name := by injection hcons
    have hnames : (name :: rest.map Prod.fst).Nodup := by simpa using hwf.dir_names
    exact (List.nodup_cons.mp hnames).1 (hn3 ▸ hmem3)
  | case5 pre name rest ih =>
    intro hwf
    rw [find_files_aux]
    exact ih hwf.tail

/-- C7 (amended): from a directory root, the File Enumerator returns exactly
the entries reachable by recursive descent for which Python's `is_file()`
holds — regular files AND symlinks resolving to regular files (amended from
the claim, which excludes all symlinks) — descending through `is_dir()`
entries; on a well-formed tree (distinct sibling names) each collected path
appears exactly once. -/
theorem claim7_enumerator (pre : List String) (cs : List (String × FSNode)) :
    (∀ p c, ((p, c) ∈ find_files_aux pre cs ↔ ReachesFile pre (FSNode.dir cs) p c)) ∧
    (WFNode (FSNode.dir cs) → ((find_files_aux pre cs).map Prod.fst).Nodup) ∧
    find_files (pre, FSNode.dir cs) = Except.ok (find_files_aux pre cs) :=
  ⟨fun _ _ => ⟨aux_mem_reaches pre cs, fun h => reaches_mem_aux h rfl⟩,
   aux_nodup pre cs, rfl⟩

/-- C7 counterexample: a symlink resolving to a regular file IS collected by
the enumerator (Python's `is_file()` follows symlinks), although the claim
says symlinks are excluded: the collected entry is not reachable as a
regular file. -/
theorem claim7_enumerator_counterexample :
    (["r", "l"], fcGood) ∈ find_files_aux ["r"] cexLinkChildren ∧
    ¬ ReachesRegular ["r"] (FSNode.dir cexLinkChildren) ["r", "l"] fcGood := by
  constructor
  · simp [find_files_aux, cexLinkChildren]
  · intro h
    cases h with
    | file _ _ name c hm => simp [cexLinkChildren] at hm
    | step _ _ name sub _ _ hm hr => simp [cexLinkChildren] at hm

/-- C7 witness: the membership equivalence and uniqueness instantiated on
the one-symlink directory. -/
theorem claim7_enumerator_witness :
    ((["r", "l"], fcGood) ∈ find_files_aux ["r"] cexLinkChildren ↔
      ReachesFile ["r"] (FSNode.dir cexLinkChildren) ["r", "l"] fcGood) ∧
    ((find_files_aux ["r"] cexLinkChildren).map Prod.fst).Nodup :=
  ⟨(claim7_enumerator ["r"] cexLinkChildren).1 ["r", "l"] fcGood,
   (claim7_enumerator ["r"] cexLinkChildren).2.1
     (WFNode.dir _ (by simp [cexLinkChildren]) (fun e he => by
        simp only [cexLinkChildren, List.mem_singleton] at he
        rw [he]
        exact WFNode.link fcGood))⟩

end Todo
